import Mathlib

/-!
Verification development for the AcuteEdges_SpringMesh repository.

The development shallowly embeds the three core components of the source:

* `VoronoiMesh.extractEdgesFromCells` / `VoronoiMesh.createEdgeKey` /
  `VoronoiMesh.findConnectedEdges` (edge extraction, deduplication and
  connectivity discovery), modelled over `ℚ` coordinates;
* `EdgeAnalyzer.calculateAngleBetweenEdges` / `EdgeAnalyzer.isAcuteAngle` /
  `EdgeAnalyzer.calculateEdgeValues` (acute-angle analysis), modelled over `ℝ`;
* `MeshEvolver.updateRestLengths` / `MeshEvolver.applySpringForcesToEdges` /
  `MeshEvolver.updateVertexPositions` / `MeshEvolver.wrapCoordinate` /
  `MeshEvolver.getVertexKey` (the spring-damper integrator), modelled over `ℝ`.

JavaScript `toFixed(6)` string keys are modelled as integer pairs obtained by
rounding the coordinate times `10^6` to the nearest integer (ties toward
`+∞`, matching ECMAScript `toFixed`); `Math.round` is `⌊x + 1/2⌋`.
JavaScript falsiness of a possibly-absent numeric property is modelled with
`Option`: absent (`none`) and `some 0` are both falsy.
-/

set_option maxHeartbeats 1600000

namespace AcuteEdges

/-- A 2-D point `{x, y}` as used throughout the source. -/
structure Pt (α : Type) where
  x : α
  y : α
deriving DecidableEq

/-- ECMAScript `toFixed(6)` on a rational, as the integer of micro-units:
round to nearest, ties toward `+∞`. -/
def toFixed6 (q : ℚ) : ℤ :=
  ⌊q * 1000000 + 1 / 2⌋

/-- JavaScript `Math.round`: round to nearest, ties toward `+∞`. -/
def jsRound (q : ℚ) : ℤ :=
  ⌊q + 1 / 2⌋

/-- Both coordinates of a point rounded as by `toFixed(6)`. -/
def roundPt (p : Pt ℚ) : ℤ × ℤ :=
  (toFixed6 p.x, toFixed6 p.y)

/-- The lexicographic comparison used by `VoronoiMesh.createEdgeKey`:
`start[0] < end[0] || (start[0] === end[0] && start[1] < end[1])`. -/
def ltLex (a b : Pt ℚ) : Prop :=
  a.x < b.x ∨ (a.x = b.x ∧ a.y < b.y)

instance (a b : Pt ℚ) : Decidable (ltLex a b) := by
  unfold ltLex
  infer_instance

/-- `VoronoiMesh.createEdgeKey`: order the two endpoints by `ltLex`, then
round each coordinate to six decimals; the key is the ordered pair of
rounded points. -/
def createEdgeKey (s e : Pt ℚ) : (ℤ × ℤ) × (ℤ × ℤ) :=
  let p1 := if ltLex s e then s else e
  let p2 := if ltLex s e then e else s
  (roundPt p1, roundPt p2)

/-- An edge record as created by `VoronoiMesh.extractEdgesFromCells`
(coordinates over `ℚ`; `length` is the real Euclidean length as stored by
`Math.sqrt`). `endp` stands for the source field `end` (a Lean keyword). -/
structure MEdge where
  id : ℕ
  start : Pt ℚ
  endp : Pt ℚ
  length : ℝ
  connectedCells : List ℕ
  connectedEdges : List ℕ
  acuteAngleCount : ℕ
  expandValue : ℚ

instance : Inhabited MEdge :=
  ⟨⟨0, ⟨0, 0⟩, ⟨0, 0⟩, 0, [], [], 0, 0⟩⟩

/-- The deduplication key of a stored edge: the key of its stored endpoints
(which are exact copies of the first-seen occurrence). -/
def edgeKeyOf (e : MEdge) : (ℤ × ℤ) × (ℤ × ℤ) :=
  createEdgeKey e.start e.endp

/-- Consecutive vertex pairs of a polygon: `(p_i, p_{(i+1) mod n})` for each
index `i`, exactly the pairs iterated by `extractEdgesFromCells`. -/
def segments (poly : List (Pt ℚ)) : List (Pt ℚ × Pt ℚ) :=
  poly.zip (poly.rotate 1)

/-- All `(cellIndex, segment)` pairs in the order the nested loops of
`extractEdgesFromCells` visit them. -/
def allSegs (cells : List (List (Pt ℚ))) : List (ℕ × (Pt ℚ × Pt ℚ)) :=
  (cells.enum.map (fun ci => (segments ci.2).map (fun s => (ci.1, s)))).flatten

/-- One step of `extractEdgesFromCells`' edge-map loop: a fresh key appends
a new edge with `id = edges.length`; a repeated key appends the owning cell
index to the (unique, since `Map` keys are unique) edge stored under it. -/
noncomputable def extractStep (acc : List MEdge) (x : ℕ × (Pt ℚ × Pt ℚ)) :
    List MEdge :=
  let k := createEdgeKey x.2.1 x.2.2
  if acc.any (fun e => decide (edgeKeyOf e = k)) then
    acc.map (fun e =>
      if edgeKeyOf e = k then
        { e with connectedCells := e.connectedCells ++ [x.1] }
      else e)
  else
    acc ++ [{ id := acc.length
              start := x.2.1
              endp := x.2.2
              length := Real.sqrt ((x.2.2.x - x.2.1.x : ℚ) ^ 2 +
                (x.2.2.y - x.2.1.y : ℚ) ^ 2)
              connectedCells := [x.1]
              connectedEdges := []
              acuteAngleCount := 0
              expandValue := 0 }]

/-- `VoronoiMesh.extractEdgesFromCells` on a list of cell polygons. -/
noncomputable def extractEdgesFromCells (cells : List (List (Pt ℚ))) :
    List MEdge :=
  (allSegs cells).foldl extractStep []

/-- The spatial-grid key of `VoronoiMesh.findConnectedEdges`
(`gridSize = 0.01`): `Math.round` of each coordinate divided by the grid
size. -/
def gridKey (p : Pt ℚ) : ℤ × ℤ :=
  (jsRound (p.x / (1 / 100)), jsRound (p.y / (1 / 100)))

/-- The edge indices bucketed at grid key `k` by `findConnectedEdges`, in
the order the source pushes them (edges in index order, each edge's start
entry before its end entry). -/
def gridEntries (E : List MEdge) (k : ℤ × ℤ) : List ℕ :=
  ((List.range E.length).map (fun i =>
    (if gridKey (E.getD i default).start = k then [i] else []) ++
    (if gridKey (E.getD i default).endp = k then [i] else []))).flatten

/-- `connectedEdges` computed for edge `i` by `findConnectedEdges`: all
neighbors at the start-vertex bucket except `i` itself (duplicates kept, as
in the source's first loop), then neighbors at the end-vertex bucket
appended when distinct from `i` and not already present. -/
def connectedFor (E : List MEdge) (i : ℕ) : List ℕ :=
  let l1 := (gridEntries E (gridKey (E.getD i default).start)).filter
    (fun j => decide (j ≠ i))
  (gridEntries E (gridKey (E.getD i default).endp)).foldl
    (fun acc j => if j ≠ i ∧ j ∉ acc then acc ++ [j] else acc) l1

/-- `VoronoiMesh.findConnectedEdges`: rewrite every edge's
`connectedEdges` from the shared grid built over the whole edge list. -/
def findConnectedEdges (E : List MEdge) : List MEdge :=
  (List.range E.length).map (fun i =>
    { E.getD i default with connectedEdges := connectedFor E i })

open scoped Classical

/-- An edge record as seen by `EdgeAnalyzer` and `MeshEvolver`, with real
coordinates. `originalLength` and `targetLength` are `Option` because the
source properties are absent until the first Evolver pass sets them
(JavaScript falsiness: absent and `0` behave alike). -/
structure EvEdge where
  id : ℕ
  start : Pt ℝ
  endp : Pt ℝ
  length : ℝ
  originalLength : Option ℝ
  targetLength : Option ℝ
  connectedCells : List ℕ
  connectedEdges : List ℕ
  acuteAngleCount : ℕ
  expandValue : ℝ

instance : Inhabited EvEdge :=
  ⟨⟨0, ⟨0, 0⟩, ⟨0, 0⟩, 0, none, none, [], [], 0, 0⟩⟩

/-- JavaScript `o || d` for a possibly-absent numeric property: absent and
`0` both fall back to `d`. -/
noncomputable def jsOr (o : Option ℝ) (d : ℝ) : ℝ :=
  match o with
  | none => d
  | some v => if v = 0 then d else v

/-- The tolerance `1e-6` used by `EdgeAnalyzer`. -/
noncomputable def tolerance : ℝ :=
  1 / 1000000

/-- `EdgeAnalyzer.pointsEqual`: coordinatewise distance below `tol`. -/
def pointsEqual (p1 p2 : Pt ℝ) (tol : ℝ) : Prop :=
  |p1.x - p2.x| < tol ∧ |p1.y - p2.y| < tol

/-- `EdgeAnalyzer.findSharedVertex`: the first of
start/start, start/end, end/start, end/end to coincide within tolerance. -/
noncomputable def findSharedVertex (e1 e2 : EvEdge) : Option (Pt ℝ) :=
  if pointsEqual e1.start e2.start tolerance then some e1.start
  else if pointsEqual e1.start e2.endp tolerance then some e1.start
  else if pointsEqual e1.endp e2.start tolerance then some e1.endp
  else if pointsEqual e1.endp e2.endp tolerance then some e1.endp
  else none

/-- `EdgeAnalyzer.getDirectionFromVertex`: from start to end when the start
matches the shared vertex, otherwise from end to start. -/
noncomputable def getDirectionFromVertex (e : EvEdge) (s : Pt ℝ) : Pt ℝ :=
  if pointsEqual e.start s tolerance then
    ⟨e.endp.x - e.start.x, e.endp.y - e.start.y⟩
  else
    ⟨e.start.x - e.endp.x, e.start.y - e.endp.y⟩

/-- The dot product `vector1.x * vector2.x + vector1.y * vector2.y`. -/
noncomputable def dotPt (a b : Pt ℝ) : ℝ :=
  a.x * b.x + a.y * b.y

/-- The magnitude `Math.sqrt(v.x * v.x + v.y * v.y)`. -/
noncomputable def magPt (a : Pt ℝ) : ℝ :=
  Real.sqrt (a.x * a.x + a.y * a.y)

/-- `EdgeAnalyzer.calculateAngleBetweenEdges`: 180° without a shared
vertex; 0° when a direction vector has zero magnitude; otherwise the
arc-cosine of the clamped normalized dot product, in degrees. -/
noncomputable def calculateAngleBetweenEdges (e1 e2 : EvEdge) : ℝ :=
  match findSharedVertex e1 e2 with
  | none => 180
  | some s =>
    let v1 := getDirectionFromVertex e1 s
    let v2 := getDirectionFromVertex e2 s
    if magPt v1 = 0 ∨ magPt v2 = 0 then 0
    else
      let clampedCos := max (-1) (min 1 (dotPt v1 v2 / (magPt v1 * magPt v2)))
      Real.arccos clampedCos * (180 / Real.pi)

/-- `EdgeAnalyzer.isAcuteAngle`: strictly below 90 degrees. -/
def isAcuteAngle (angleDegrees : ℝ) : Prop :=
  angleDegrees < 90

/-- One element of the list returned by
`EdgeAnalyzer.calculateEdgeValues` (`type` is `'expand'` when the value is
positive, `'shrink'` otherwise). -/
structure EdgeValue where
  edgeId : ℕ
  value : ℝ
  isExpand : Bool

/-- The per-edge value of `EdgeAnalyzer.calculateEdgeValues`:
`changeRate × acuteAngleCount` when the count is positive, else
`−changeRate`. -/
noncomputable def edgeValueOf (changeRate : ℝ) (e : EvEdge) : ℝ :=
  if e.acuteAngleCount > 0 then changeRate * e.acuteAngleCount
  else -changeRate

/-- `EdgeAnalyzer.calculateEdgeValues`: writes every edge's `expandValue`
and returns the value list (default `changeRate` in the source is 5). -/
noncomputable def calculateEdgeValues (edges : List EvEdge) (changeRate : ℝ) :
    List EvEdge × List EdgeValue :=
  (edges.map (fun e => { e with expandValue := edgeValueOf changeRate e }),
   edges.map (fun e =>
     { edgeId := e.id
       value := edgeValueOf changeRate e
       isExpand := decide (0 < edgeValueOf changeRate e) }))

/-- `MeshEvolver.config.springConstant = 0.3`. -/
noncomputable def springConstant : ℝ :=
  3 / 10

/-- `MeshEvolver.config.dampingFactor = 0.85`. -/
noncomputable def dampingFactor : ℝ :=
  17 / 20

/-- `MeshEvolver.config.timeStep = 0.1`. -/
noncomputable def timeStep : ℝ :=
  1 / 10

/-- `MeshEvolver.getVertexKey`: the `toFixed(6)` string of the position,
modelled as the pair of micro-unit roundings. -/
noncomputable def getVertexKey (p : Pt ℝ) : ℤ × ℤ :=
  (⌊p.x * 1000000 + 1 / 2⌋, ⌊p.y * 1000000 + 1 / 2⌋)

/-- Overwrite-or-append update of an association list, matching
JavaScript `Map.set` (insertion order kept, an existing key — unique in a
`Map` — is overwritten in place, a fresh key is appended). -/
def setAssoc {κ ν : Type} [DecidableEq κ] :
    List (κ × ν) → κ → ν → List (κ × ν)
  | [], k, v => [(k, v)]
  | p :: m, k, v => if p.1 = k then (k, v) :: m else p :: setAssoc m k v

/-- `Map.get` on an association list. -/
def lookupAssoc {κ ν : Type} [DecidableEq κ] (m : List (κ × ν)) (k : κ) :
    Option ν :=
  (m.find? (fun p => decide (p.1 = k))).map (fun p => p.2)

/-- The `valueMap` built at the top of `MeshEvolver.updateRestLengths`. -/
def valueMapOf (edgeValues : List EdgeValue) : List (ℕ × ℝ) :=
  edgeValues.foldl (fun m ev => setAssoc m ev.edgeId ev.value) []

/-- `MeshEvolver.updateRestLengths`: build the id→value map, then for each
edge capture `originalLength` from the current length when it is falsy
(absent or zero) and set `targetLength = originalLength × (1 + value/100)`. -/
noncomputable def updateRestLengths (edges : List EvEdge)
    (edgeValues : List EdgeValue) : List EvEdge :=
  edges.map (fun e =>
    let v := jsOr (lookupAssoc (valueMapOf edgeValues) e.id) 0
    let orig := jsOr e.originalLength e.length
    { e with
      originalLength := some orig
      targetLength := some (orig * (1 + v / 100)) })

/-- The live Euclidean length between an edge's endpoints, as recomputed by
`MeshEvolver.applySpringForcesToEdges`. -/
noncomputable def currentLength (e : EvEdge) : ℝ :=
  Real.sqrt ((e.endp.x - e.start.x) ^ 2 + (e.endp.y - e.start.y) ^ 2)

/-- `edge.targetLength || edge.length` from the force loop. -/
noncomputable def targetOf (e : EvEdge) : ℝ :=
  jsOr e.targetLength e.length

/-- The spring force an edge adds to its start vertex's accumulator (the
end vertex receives the negation); a zero-length edge is skipped and
contributes nothing, so the normalizing division never sees a zero
denominator. -/
noncomputable def edgeForce (e : EvEdge) : ℝ × ℝ :=
  let dx := e.endp.x - e.start.x
  let dy := e.endp.y - e.start.y
  let L := currentLength e
  if L = 0 then (0, 0)
  else
    let fm := springConstant * (L - targetOf e)
    (dx / L * fm, dy / L * fm)

/-- One edge's contribution to the force accumulator bucketed at key `k`. -/
noncomputable def edgeContribAt (e : EvEdge) (k : ℤ × ℤ) : ℝ × ℝ :=
  ((if getVertexKey e.start = k then (edgeForce e).1 else 0) +
     (if getVertexKey e.endp = k then -(edgeForce e).1 else 0),
   (if getVertexKey e.start = k then (edgeForce e).2 else 0) +
     (if getVertexKey e.endp = k then -(edgeForce e).2 else 0))

/-- The accumulated force at key `k` over the whole edge list. -/
noncomputable def forceAt (edges : List EvEdge) (k : ℤ × ℤ) : ℝ × ℝ :=
  ((edges.map (fun e => (edgeContribAt e k).1)).sum,
   (edges.map (fun e => (edgeContribAt e k).2)).sum)

/-- Every `(key, (edgeIndex, isStart))` endpoint occurrence, in the order
the force-map build loop visits them. -/
noncomputable def vertexRefs (edges : List EvEdge) :
    List ((ℤ × ℤ) × (ℕ × Bool)) :=
  ((List.range edges.length).map (fun i =>
    [(getVertexKey (edges.getD i default).start, (i, true)),
     (getVertexKey (edges.getD i default).endp, (i, false))])).flatten

/-- The force map's keys with their representative vertex objects: the
first endpoint seen with each distinct key (the object stored in the map
entry, the only one `updateVertexPositions` moves). -/
noncomputable def forceKeys (edges : List EvEdge) :
    List ((ℤ × ℤ) × (ℕ × Bool)) :=
  (vertexRefs edges).foldl
    (fun acc p => if ∃ q ∈ acc, q.1 = p.1 then acc else acc ++ [p]) []

/-- The velocity store `this.vertexVelocities`, keyed by position strings. -/
abbrev VelMap := List ((ℤ × ℤ) × (ℝ × ℝ))

/-- The velocity `updateVertexPositions` computes for the accumulator at
key `k`: stored velocity (zero when the key is absent) plus
`force × timeStep`, then damped. -/
noncomputable def stepVel (vel : VelMap) (edges : List EvEdge) (k : ℤ × ℤ) :
    ℝ × ℝ :=
  let old := (lookupAssoc vel k).getD (0, 0)
  (dampingFactor * (old.1 + (forceAt edges k).1 * timeStep),
   dampingFactor * (old.2 + (forceAt edges k).2 * timeStep))

/-- `MeshEvolver.wrapCoordinate`: shift by one domain extent when outside
`[mn, mx]`. -/
noncomputable def wrapCoordinate (coord mn mx : ℝ) : ℝ :=
  let r := mx - mn
  if coord < mn then coord + r
  else if coord > mx then coord - r
  else coord

/-- The position of the endpoint referenced by `r` (`true` = start). -/
noncomputable def posOf (edges : List EvEdge) (r : ℕ × Bool) : Pt ℝ :=
  if r.2 then (edges.getD r.1 default).start else (edges.getD r.1 default).endp

/-- The representative endpoint stored in the force map for key `k`. -/
noncomputable def repFor (edges : List EvEdge) (k : ℤ × ℤ) :
    Option (ℕ × Bool) :=
  ((vertexRefs edges).find? (fun p => decide (p.1 = k))).map (fun p => p.2)

/-- The position of endpoint `r` after `updateVertexPositions`: only the
representative object of each force-map key moves (by the damped velocity,
then wrapped into the domain `[-8,8] × [-6,6]`); every other endpoint
object keeps its position. -/
noncomputable def movedPos (vel : VelMap) (edges : List EvEdge)
    (r : ℕ × Bool) : Pt ℝ :=
  let p := posOf edges r
  let k := getVertexKey p
  if repFor edges k = some r then
    let v := stepVel vel edges k
    ⟨wrapCoordinate (p.x + v.1 * timeStep) (-8) 8,
     wrapCoordinate (p.y + v.2 * timeStep) (-6) 6⟩
  else p

/-- The velocity store after `updateVertexPositions`: each force-map key is
overwritten with its damped updated velocity; other keys persist. -/
noncomputable def newVelocities (vel : VelMap) (edges : List EvEdge) : VelMap :=
  (forceKeys edges).foldl (fun m p => setAssoc m p.1 (stepVel vel edges p.1)) vel

/-- The edge list after `updateVertexPositions` moved the representative
vertex objects. -/
noncomputable def applyMoves (vel : VelMap) (edges : List EvEdge) :
    List EvEdge :=
  (List.range edges.length).map (fun i =>
    { edges.getD i default with
      start := movedPos vel edges (i, true)
      endp := movedPos vel edges (i, false) })

/-- `MeshEvolver.applySpringForcesToEdges`: accumulate spring forces per
vertex key, run `updateVertexPositions`, then refresh every edge's
`length` from the moved endpoints. -/
noncomputable def applySpringForcesToEdges (vel : VelMap)
    (edges : List EvEdge) : VelMap × List EvEdge :=
  (newVelocities vel edges,
   (applyMoves vel edges).map (fun e => { e with length := currentLength e }))

/-- `MeshEvolver.applyEdgeValues`: one full Evolver pass,
`updateRestLengths` then `applySpringForcesToEdges` (the trailing
`voronoiMesh.updateMesh()` only refreshes render buffers and touches no
edge fields). -/
noncomputable def applyEdgeValues (vel : VelMap) (edges : List EvEdge)
    (edgeValues : List EdgeValue) : VelMap × List EvEdge :=
  applySpringForcesToEdges vel (updateRestLengths edges edgeValues)

/-- A bare analyzer/evolver edge with the given endpoints, all other
fields zeroed or absent. -/
noncomputable def mkE (a b : Pt ℝ) : EvEdge :=
  ⟨0, a, b, 0, none, none, [], [], 0, 0⟩

/-- A concrete Evolver scenario: one stretched horizontal edge with
current length 2 and target length 1. -/
noncomputable def c3Edge : EvEdge :=
  ⟨0, ⟨0, 0⟩, ⟨2, 0⟩, 1, none, some 1, [], [], 0, 0⟩

/-- One `applySpringForcesToEdges` pass on `[c3Edge]` from an empty
velocity store. -/
noncomputable def c3State : VelMap × List EvEdge :=
  applySpringForcesToEdges [] [c3Edge]

/- ------------------------------------------------------------------ -/
/- Helper lemmas.                                                      -/
/- ------------------------------------------------------------------ -/

lemma getD_map_lt {α β : Type} [Inhabited α] [Inhabited β] (l : List α)
    (f : α → β) (i : ℕ) (h : i < l.length) :
    (l.map f).getD i default = f (l.getD i default) := by
  rw [List.getD_eq_getElem?_getD, List.getD_eq_getElem?_getD,
    List.getElem?_map, List.getElem?_eq_getElem h]
  simp

lemma getD_range_map_lt {β : Type} [Inhabited β] (n : ℕ) (f : ℕ → β) (i : ℕ)
    (h : i < n) :
    ((List.range n).map f).getD i default = f i := by
  rw [List.getD_eq_getElem?_getD, List.getElem?_map, List.getElem?_range h]
  simp

/- ------------------------------------------------------------------ -/
/- Claim C1.                                                           -/
/- ------------------------------------------------------------------ -/

/-- An edge whose lifetime baseline (5) differs from its current
length (7), as arises from the second Evolver pass on. -/
noncomputable def c1Edge : EvEdge :=
  ⟨0, ⟨0, 0⟩, ⟨7, 0⟩, 7, some 5, none, [], [], 0, 0⟩

/-- Claim C1 counterexample: on an edge whose current length is 7 but
whose `originalLength` was captured as 5 in an earlier pass,
`updateRestLengths` keeps the old baseline 5 (it does not reset it to the
current length 7), and the target is `5 × 1.1 = 5.5`, not `7 × 1.1`. -/
theorem C1_counterexample :
    ((updateRestLengths [c1Edge] [⟨0, 10, true⟩]).getD 0 default).originalLength
        = some 5 ∧
    ((updateRestLengths [c1Edge] [⟨0, 10, true⟩]).getD 0 default).originalLength
        ≠ some 7 ∧
    ((updateRestLengths [c1Edge] [⟨0, 10, true⟩]).getD 0 default).targetLength
        = some (11 / 2) := by
  norm_num [updateRestLengths, valueMapOf, setAssoc, lookupAssoc, jsOr, c1Edge,
    List.foldl, List.find?]

/-- Claim C1 (amended): `updateRestLengths` captures `originalLength` from
the current length only when it is unset or zero (in practice, the first
pass an edge is seen); on later passes the stored lifetime baseline is kept
unchanged — the baseline is NOT reset each generation — and
`targetLength = originalLength × (1 + value/100)` uses that stored
baseline. -/
theorem C1_amended_lifetime_baseline (edges : List EvEdge)
    (edgeValues : List EdgeValue) (i : ℕ) (hi : i < edges.length) :
    (∀ o : ℝ, (edges.getD i default).originalLength = some o → o ≠ 0 →
      ((updateRestLengths edges edgeValues).getD i default).originalLength
          = some o ∧
      ((updateRestLengths edges edgeValues).getD i default).targetLength
          = some (o * (1 + jsOr (lookupAssoc (valueMapOf edgeValues)
              (edges.getD i default).id) 0 / 100))) ∧
    (((edges.getD i default).originalLength = none ∨
        (edges.getD i default).originalLength = some 0) →
      ((updateRestLengths edges edgeValues).getD i default).originalLength
          = some (edges.getD i default).length ∧
      ((updateRestLengths edges edgeValues).getD i default).targetLength
          = some ((edges.getD i default).length * (1 +
              jsOr (lookupAssoc (valueMapOf edgeValues)
                (edges.getD i default).id) 0 / 100))) := by
  unfold updateRestLengths
  rw [getD_map_lt _ _ _ hi]
  constructor
  · intro o ho hne
    rw [ho]
    constructor
    · simp [jsOr, hne]
    · simp [jsOr, hne]
  · rintro (ho | ho) <;> rw [ho] <;> constructor <;> simp [jsOr]

/-- Closed instance of the amended C1 theorem at `c1Edge`: the nonzero
stored baseline 5 survives the pass untouched. -/
theorem C1_witness :
    ((updateRestLengths [c1Edge] [⟨0, 10, true⟩]).getD 0 default).originalLength
      = some 5 :=
  ((C1_amended_lifetime_baseline [c1Edge] [⟨0, 10, true⟩] 0 (by norm_num)).1
    5 (by norm_num [c1Edge]) (by norm_num)).1

/- ------------------------------------------------------------------ -/
/- Claim C2.                                                           -/
/- ------------------------------------------------------------------ -/

/-- Claim C2: after `calculateEdgeValues` with rate `changeRate`, an edge
with positive `acuteAngleCount` has
`expandValue = changeRate × acuteAngleCount`, and an edge with count 0 has
`expandValue = −changeRate`, a flat shrink independent of its connection
count. -/
theorem C2_expand_shrink_rule (edges : List EvEdge) (changeRate : ℝ) (i : ℕ)
    (hi : i < edges.length) :
    (0 < (edges.getD i default).acuteAngleCount →
      ((calculateEdgeValues edges changeRate).1.getD i default).expandValue
        = changeRate * (edges.getD i default).acuteAngleCount) ∧
    ((edges.getD i default).acuteAngleCount = 0 →
      ((calculateEdgeValues edges changeRate).1.getD i default).expandValue
        = -changeRate) := by
  unfold calculateEdgeValues
  simp only
  rw [getD_map_lt _ _ _ hi]
  constructor
  · intro h
    simp only [edgeValueOf, if_pos h]
  · intro h
    simp only [edgeValueOf, h, lt_irrefl, if_false]

/-- Closed instance of C2: `acuteAngleCount = 3` with `changeRate = 5`
yields `expandValue = 15`; `acuteAngleCount = 0` yields `−5` even with
connections present. -/
theorem C2_witness :
    ((calculateEdgeValues
        [⟨0, ⟨0, 0⟩, ⟨1, 0⟩, 1, none, none, [], [1], 3, 0⟩,
         ⟨1, ⟨0, 0⟩, ⟨0, 1⟩, 1, none, none, [], [0], 0, 0⟩] 5).1.getD 0
        default).expandValue = 15 ∧
    ((calculateEdgeValues
        [⟨0, ⟨0, 0⟩, ⟨1, 0⟩, 1, none, none, [], [1], 3, 0⟩,
         ⟨1, ⟨0, 0⟩, ⟨0, 1⟩, 1, none, none, [], [0], 0, 0⟩] 5).1.getD 1
        default).expandValue = -5 := by
  constructor
  · have h := (C2_expand_shrink_rule
      [⟨0, ⟨0, 0⟩, ⟨1, 0⟩, 1, none, none, [], [1], 3, 0⟩,
       ⟨1, ⟨0, 0⟩, ⟨0, 1⟩, 1, none, none, [], [0], 0, 0⟩] 5 0
      (by norm_num)).1 (by norm_num)
    rw [h]
    norm_num
  · exact (C2_expand_shrink_rule
      [⟨0, ⟨0, 0⟩, ⟨1, 0⟩, 1, none, none, [], [1], 3, 0⟩,
       ⟨1, ⟨0, 0⟩, ⟨0, 1⟩, 1, none, none, [], [0], 0, 0⟩] 5 1
      (by norm_num)).2 (by norm_num)

/- ------------------------------------------------------------------ -/
/- Claim C8.                                                           -/
/- ------------------------------------------------------------------ -/

/-- Claim C8 counterexample: a coordinate exactly at the domain maximum is
returned unchanged by `wrapCoordinate`, so wrapped coordinates do NOT all
lie in the half-open interval `[min, max)` claimed by the spec. -/
theorem C8_counterexample :
    wrapCoordinate 8 (-8) 8 = 8 ∧ ¬ wrapCoordinate 8 (-8) 8 < 8 := by
  have h : wrapCoordinate 8 (-8) 8 = 8 := by
    unfold wrapCoordinate
    rw [if_neg (by norm_num), if_neg (by norm_num)]
  exact ⟨h, by rw [h]; exact lt_irrefl 8⟩

/-- Claim C8 (amended): `wrapCoordinate` maps `max + δ` (δ > 0) to
`min + δ`, is the identity on in-range coordinates (so re-wrapping an
in-range value is a no-op), and any coordinate within one domain extent of
the bounds lands in the closed interval `[min, max]` (closed at `max`: a
coordinate exactly at `max` stays at `max`, not `[min, max)`). -/
theorem C8_wrap_amended (mn mx c d : ℝ) (hle : mn ≤ mx) :
    (0 < d → wrapCoordinate (mx + d) mn mx = mn + d) ∧
    (mn ≤ c → c ≤ mx → wrapCoordinate c mn mx = c) ∧
    (mn - (mx - mn) ≤ c → c ≤ mx + (mx - mn) →
      mn ≤ wrapCoordinate c mn mx ∧ wrapCoordinate c mn mx ≤ mx) := by
  unfold wrapCoordinate
  dsimp only
  refine ⟨?_, ?_, ?_⟩
  · intro hd
    rw [if_neg (by linarith), if_pos (by linarith)]
    ring
  · intro h1 h2
    rw [if_neg (by linarith), if_neg (by linarith)]
  · intro h1 h2
    split_ifs with hc1 hc2
    · constructor <;> linarith
    · constructor <;> linarith
    · constructor <;> linarith

/-- Closed instance of the amended C8 theorem: `8.5` wraps to `-7.5` in the
x-domain `[-8, 8]`. -/
theorem C8_witness : wrapCoordinate (8 + 1 / 2) (-8) 8 = -8 + 1 / 2 :=
  (C8_wrap_amended (-8) 8 0 (1 / 2) (by norm_num)).1 (by norm_num)

/- ------------------------------------------------------------------ -/
/- Claim C9.                                                           -/
/- ------------------------------------------------------------------ -/

/-- Claim C9: a zero-length edge is skipped by the force loop — it
contributes nothing to any vertex's force accumulator (its guarded branch
returns before the normalizing division, whose denominator is the length,
is ever taken with a zero value). -/
theorem C9_zero_length_skipped (edges : List EvEdge) (e : EvEdge) (k : ℤ × ℤ)
    (h : currentLength e = 0) :
    edgeContribAt e k = (0, 0) ∧ forceAt (e :: edges) k = forceAt edges k := by
  have hf : edgeForce e = (0, 0) := by
    unfold edgeForce
    rw [if_pos h]
  have hc : edgeContribAt e k = (0, 0) := by
    unfold edgeContribAt
    rw [hf]
    simp
  refine ⟨hc, ?_⟩
  unfold forceAt
  rw [List.map_cons, List.map_cons, List.sum_cons, List.sum_cons, hc]
  norm_num

/-- Closed instance of C9 at a degenerate edge from `(1,2)` to `(1,2)`. -/
theorem C9_witness :
    edgeContribAt (mkE ⟨1, 2⟩ ⟨1, 2⟩) (0, 0) = (0, 0) ∧
    forceAt [mkE ⟨1, 2⟩ ⟨1, 2⟩] (0, 0) = forceAt [] (0, 0) :=
  C9_zero_length_skipped [] (mkE ⟨1, 2⟩ ⟨1, 2⟩) (0, 0)
    (by norm_num [currentLength, mkE, Real.sqrt_zero])

/- ------------------------------------------------------------------ -/
/- Claim C6.                                                           -/
/- ------------------------------------------------------------------ -/

lemma pointsEqual_self (p : Pt ℝ) : pointsEqual p p tolerance := by
  unfold pointsEqual tolerance
  norm_num

lemma shared_mkE (a b c : Pt ℝ) :
    findSharedVertex (mkE a b) (mkE a c) = some a := by
  unfold findSharedVertex mkE
  dsimp only
  rw [if_pos (pointsEqual_self a)]

lemma dir_mkE_start (a b : Pt ℝ) :
    getDirectionFromVertex (mkE a b) a = ⟨b.x - a.x, b.y - a.y⟩ := by
  unfold getDirectionFromVertex mkE
  dsimp only
  rw [if_pos (pointsEqual_self a)]

lemma angle_mkE (a b c : Pt ℝ)
    (h1 : magPt ⟨b.x - a.x, b.y - a.y⟩ ≠ 0)
    (h2 : magPt ⟨c.x - a.x, c.y - a.y⟩ ≠ 0) :
    calculateAngleBetweenEdges (mkE a b) (mkE a c) =
      Real.arccos (max (-1) (min 1
        (dotPt ⟨b.x - a.x, b.y - a.y⟩ ⟨c.x - a.x, c.y - a.y⟩ /
          (magPt ⟨b.x - a.x, b.y - a.y⟩ * magPt ⟨c.x - a.x, c.y - a.y⟩)))) *
        (180 / Real.pi) := by
  unfold calculateAngleBetweenEdges
  rw [shared_mkE a b c]
  dsimp only
  rw [dir_mkE_start a b, dir_mkE_start a c]
  rw [if_neg (not_or.mpr ⟨h1, h2⟩)]

lemma sqrt_two_le_two : Real.sqrt 2 ≤ 2 := by
  nlinarith [Real.sq_sqrt (show (0:ℝ) ≤ 2 by norm_num), Real.sqrt_nonneg 2]

/-- Claim C6: the computed angle is `acos` of the clamped cosine of the
direction vectors away from the shared vertex, in degrees; no shared
vertex yields 180°, a zero-magnitude direction yields 0°, acuteness is
strict `< 90°`; concretely, directions `(1,0)`/`(0,1)` give 90° (not
acute), `(1,0)`/`(1,1)` give 45° (acute), `(1,0)`/`(-1,0)` give 180°. -/
theorem C6_angle_correctness :
    (∀ e1 e2 : EvEdge, findSharedVertex e1 e2 = none →
      calculateAngleBetweenEdges e1 e2 = 180) ∧
    (∀ e1 e2 : EvEdge, ∀ s : Pt ℝ, findSharedVertex e1 e2 = some s →
      (magPt (getDirectionFromVertex e1 s) = 0 ∨
        magPt (getDirectionFromVertex e2 s) = 0) →
      calculateAngleBetweenEdges e1 e2 = 0) ∧
    (∀ e1 e2 : EvEdge, ∀ s : Pt ℝ, findSharedVertex e1 e2 = some s →
      magPt (getDirectionFromVertex e1 s) ≠ 0 →
      magPt (getDirectionFromVertex e2 s) ≠ 0 →
      calculateAngleBetweenEdges e1 e2 =
        Real.arccos (max (-1) (min 1
          (dotPt (getDirectionFromVertex e1 s) (getDirectionFromVertex e2 s) /
            (magPt (getDirectionFromVertex e1 s) *
              magPt (getDirectionFromVertex e2 s))))) * (180 / Real.pi)) ∧
    (∀ a : ℝ, isAcuteAngle a ↔ a < 90) ∧
    (calculateAngleBetweenEdges (mkE ⟨0, 0⟩ ⟨1, 0⟩) (mkE ⟨0, 0⟩ ⟨0, 1⟩) = 90 ∧
      ¬ isAcuteAngle
        (calculateAngleBetweenEdges (mkE ⟨0, 0⟩ ⟨1, 0⟩) (mkE ⟨0, 0⟩ ⟨0, 1⟩))) ∧
    (calculateAngleBetweenEdges (mkE ⟨0, 0⟩ ⟨1, 0⟩) (mkE ⟨0, 0⟩ ⟨1, 1⟩) = 45 ∧
      isAcuteAngle
        (calculateAngleBetweenEdges (mkE ⟨0, 0⟩ ⟨1, 0⟩) (mkE ⟨0, 0⟩ ⟨1, 1⟩))) ∧
    calculateAngleBetweenEdges (mkE ⟨0, 0⟩ ⟨1, 0⟩) (mkE ⟨0, 0⟩ ⟨-1, 0⟩)
      = 180 := by
  have hpi := Real.pi_pos
  have h90 : calculateAngleBetweenEdges (mkE ⟨0, 0⟩ ⟨1, 0⟩)
      (mkE ⟨0, 0⟩ ⟨0, 1⟩) = 90 := by
    rw [angle_mkE _ _ _ (by norm_num [magPt, Real.sqrt_one])
      (by norm_num [magPt, Real.sqrt_one])]
    norm_num [dotPt, magPt, Real.sqrt_one, Real.arccos_zero]
    field_simp
    ring
  have h45 : calculateAngleBetweenEdges (mkE ⟨0, 0⟩ ⟨1, 0⟩)
      (mkE ⟨0, 0⟩ ⟨1, 1⟩) = 45 := by
    rw [angle_mkE _ _ _ (by norm_num [magPt, Real.sqrt_one])
      (by norm_num [magPt])]
    have hm : (1 - 0 : ℝ) * (1 - 0) + (1 - 0) * (1 - 0) = 2 := by norm_num
    norm_num [dotPt, magPt, Real.sqrt_one, hm]
    have hs2 : (0:ℝ) < Real.sqrt 2 := Real.sqrt_pos.mpr (by norm_num)
    have hdiv : (Real.sqrt 2)⁻¹ = Real.sqrt 2 / 2 := by
      rw [inv_eq_one_div, div_eq_div_iff hs2.ne' two_ne_zero, one_mul,
        Real.mul_self_sqrt (by norm_num)]
    have hle : Real.sqrt 2 / 2 ≤ 1 := by linarith [sqrt_two_le_two]
    have hge : (-1 : ℝ) ≤ Real.sqrt 2 / 2 := by
      linarith [Real.sqrt_nonneg 2]
    rw [hdiv, min_eq_right hle, max_eq_right hge, ← Real.cos_pi_div_four,
      Real.arccos_cos (by positivity) (by linarith)]
    field_simp
    ring
  have h180 : calculateAngleBetweenEdges (mkE ⟨0, 0⟩ ⟨1, 0⟩)
      (mkE ⟨0, 0⟩ ⟨-1, 0⟩) = 180 := by
    rw [angle_mkE _ _ _ (by norm_num [magPt, Real.sqrt_one])
      (by norm_num [magPt, Real.sqrt_one])]
    norm_num [dotPt, magPt, Real.sqrt_one, Real.arccos_neg_one]
    field_simp
  refine ⟨?_, ?_, ?_, ?_, ⟨h90, ?_⟩, ⟨h45, ?_⟩, h180⟩
  · intro e1 e2 h
    unfold calculateAngleBetweenEdges
    rw [h]
  · intro e1 e2 s h hmag
    unfold calculateAngleBetweenEdges
    rw [h]
    dsimp only
    rw [if_pos hmag]
  · intro e1 e2 s h h1 h2
    unfold calculateAngleBetweenEdges
    rw [h]
    dsimp only
    rw [if_neg (not_or.mpr ⟨h1, h2⟩)]
  · intro a
    exact Iff.rfl
  · rw [h90]
    unfold isAcuteAngle
    exact lt_irrefl 90
  · rw [h45]
    unfold isAcuteAngle
    norm_num

/-- Closed instance of C6: two edges with no shared vertex report 180°. -/
theorem C6_witness :
    calculateAngleBetweenEdges (mkE ⟨0, 0⟩ ⟨1, 0⟩) (mkE ⟨5, 5⟩ ⟨6, 5⟩)
      = 180 :=
  C6_angle_correctness.1 (mkE ⟨0, 0⟩ ⟨1, 0⟩) (mkE ⟨5, 5⟩ ⟨6, 5⟩) (by
    unfold findSharedVertex mkE
    dsimp only
    rw [if_neg (by norm_num [pointsEqual, tolerance]),
      if_neg (by norm_num [pointsEqual, tolerance]),
      if_neg (by norm_num [pointsEqual, tolerance]),
      if_neg (by norm_num [pointsEqual, tolerance])])

/- ------------------------------------------------------------------ -/
/- Claim C4.                                                           -/
/- ------------------------------------------------------------------ -/

lemma mem_gridEntries (E : List MEdge) (k : ℤ × ℤ) (j : ℕ) :
    j ∈ gridEntries E k ↔
      j < E.length ∧ (gridKey (E.getD j default).start = k ∨
        gridKey (E.getD j default).endp = k) := by
  unfold gridEntries
  rw [List.mem_flatten]
  constructor
  · rintro ⟨l, hl, hj⟩
    rw [List.mem_map] at hl
    obtain ⟨i, hi, rfl⟩ := hl
    rw [List.mem_range] at hi
    rw [List.mem_append] at hj
    rcases hj with hj | hj
    · by_cases h : gridKey (E.getD i default).start = k
      · rw [if_pos h, List.mem_singleton] at hj
        subst hj
        exact ⟨hi, Or.inl h⟩
      · rw [if_neg h] at hj
        exact absurd hj (List.not_mem_nil j)
    · by_cases h : gridKey (E.getD i default).endp = k
      · rw [if_pos h, List.mem_singleton] at hj
        subst hj
        exact ⟨hi, Or.inr h⟩
      · rw [if_neg h] at hj
        exact absurd hj (List.not_mem_nil j)
  · rintro ⟨hj, h⟩
    refine ⟨(if gridKey (E.getD j default).start = k then [j] else []) ++
      (if gridKey (E.getD j default).endp = k then [j] else []), ?_, ?_⟩
    · rw [List.mem_map]
      exact ⟨j, List.mem_range.mpr hj, rfl⟩
    · rw [List.mem_append]
      rcases h with h | h
      · exact Or.inl (by rw [if_pos h]; exact List.mem_singleton.mpr rfl)
      · exact Or.inr (by rw [if_pos h]; exact List.mem_singleton.mpr rfl)

lemma mem_dedup_fold (i x : ℕ) :
    ∀ (l acc : List ℕ),
      (x ∈ l.foldl
          (fun acc j => if j ≠ i ∧ j ∉ acc then acc ++ [j] else acc) acc ↔
        x ∈ acc ∨ (x ∈ l ∧ x ≠ i))
  | [], acc => by simp
  | a :: l, acc => by
    rw [List.foldl_cons]
    by_cases ha : a ≠ i ∧ a ∉ acc
    · rw [if_pos ha, mem_dedup_fold i x l (acc ++ [a]), List.mem_append,
        List.mem_singleton, List.mem_cons]
      constructor
      · rintro ((h | rfl) | ⟨h1, h2⟩)
        · exact Or.inl h
        · exact Or.inr ⟨Or.inl rfl, ha.1⟩
        · exact Or.inr ⟨Or.inr h1, h2⟩
      · rintro (h | ⟨(rfl | h1), h2⟩)
        · exact Or.inl (Or.inl h)
        · exact Or.inl (Or.inr rfl)
        · exact Or.inr ⟨h1, h2⟩
    · rw [if_neg ha, mem_dedup_fold i x l acc, List.mem_cons]
      push_neg at ha
      constructor
      · rintro (h | ⟨h1, h2⟩)
        · exact Or.inl h
        · exact Or.inr ⟨Or.inr h1, h2⟩
      · rintro (h | ⟨(rfl | h1), h2⟩)
        · exact Or.inl h
        · exact Or.inl (ha h2)
        · exact Or.inr ⟨h1, h2⟩

lemma mem_connectedFor (E : List MEdge) (i j : ℕ) :
    j ∈ connectedFor E i ↔
      j ≠ i ∧ j < E.length ∧
        ((gridKey (E.getD j default).start = gridKey (E.getD i default).start ∨
          gridKey (E.getD j default).endp = gridKey (E.getD i default).start) ∨
         (gridKey (E.getD j default).start = gridKey (E.getD i default).endp ∨
          gridKey (E.getD j default).endp = gridKey (E.getD i default).endp)) := by
  unfold connectedFor
  rw [mem_dedup_fold, List.mem_filter, mem_gridEntries, mem_gridEntries]
  simp only [decide_eq_true_eq]
  constructor
  · rintro (⟨⟨hj, hc⟩, hne⟩ | ⟨⟨hj, hc⟩, hne⟩)
    · exact ⟨hne, hj, Or.inl hc⟩
    · exact ⟨hne, hj, Or.inr hc⟩
  · rintro ⟨hne, hj, hc | hc⟩
    · exact Or.inl ⟨⟨hj, hc⟩, hne⟩
    · exact Or.inr ⟨⟨hj, hc⟩, hne⟩

/-- Claim C4: after `findConnectedEdges`, the connected-edge relation is
symmetric — `j` is listed by edge `i` iff `i` is listed by edge `j` — and
irreflexive: no edge lists itself. -/
theorem C4_connectivity_symmetric_irreflexive (E : List MEdge) (i j : ℕ)
    (hi : i < E.length) (hj : j < E.length) :
    (j ∈ ((findConnectedEdges E).getD i default).connectedEdges ↔
      i ∈ ((findConnectedEdges E).getD j default).connectedEdges) ∧
    i ∉ ((findConnectedEdges E).getD i default).connectedEdges := by
  unfold findConnectedEdges
  rw [getD_range_map_lt _ _ _ hi, getD_range_map_lt _ _ _ hj]
  dsimp only
  constructor
  · rw [mem_connectedFor, mem_connectedFor]
    constructor
    · rintro ⟨hne, _, hc⟩
      refine ⟨hne.symm, hi, ?_⟩
      rcases hc with (h | h) | (h | h)
      · exact Or.inl (Or.inl h.symm)
      · exact Or.inr (Or.inl h.symm)
      · exact Or.inl (Or.inr h.symm)
      · exact Or.inr (Or.inr h.symm)
    · rintro ⟨hne, _, hc⟩
      refine ⟨hne.symm, hj, ?_⟩
      rcases hc with (h | h) | (h | h)
      · exact Or.inl (Or.inl h.symm)
      · exact Or.inr (Or.inl h.symm)
      · exact Or.inl (Or.inr h.symm)
      · exact Or.inr (Or.inr h.symm)
  · rw [mem_connectedFor]
    rintro ⟨hne, _, _⟩
    exact hne rfl

/-- Two concrete mesh edges sharing the vertex `(1, 0)`. -/
noncomputable def c4E0 : MEdge :=
  ⟨0, ⟨0, 0⟩, ⟨1, 0⟩, 1, [], [], 0, 0⟩

/-- Second concrete mesh edge for the C4 instance. -/
noncomputable def c4E1 : MEdge :=
  ⟨1, ⟨1, 0⟩, ⟨1, 1⟩, 1, [], [], 0, 0⟩

/-- Closed instance of C4 on two concrete edges sharing a vertex. -/
theorem C4_witness :
    (1 ∈ ((findConnectedEdges [c4E0, c4E1]).getD 0 default).connectedEdges ↔
      0 ∈ ((findConnectedEdges [c4E0, c4E1]).getD 1 default).connectedEdges) ∧
    0 ∉ ((findConnectedEdges [c4E0, c4E1]).getD 0 default).connectedEdges :=
  C4_connectivity_symmetric_irreflexive [c4E0, c4E1] 0 1 (by norm_num)
    (by norm_num)

/- ------------------------------------------------------------------ -/
/- Claim C5.                                                           -/
/- ------------------------------------------------------------------ -/

lemma ltLex_asymm {a b : Pt ℚ} (h : ltLex a b) : ¬ ltLex b a := by
  unfold ltLex at h ⊢
  push_neg
  rcases h with h | ⟨h1, h2⟩
  · exact ⟨le_of_lt h, fun he => absurd (he ▸ h) (lt_irrefl _)⟩
  · exact ⟨le_of_eq h1, fun _ => le_of_lt h2⟩

lemma ltLex_total (a b : Pt ℚ) (h1 : ¬ ltLex a b) (h2 : ¬ ltLex b a) :
    a = b := by
  unfold ltLex at h1 h2
  push_neg at h1 h2
  obtain ⟨hx1, hy1⟩ := h1
  obtain ⟨hx2, hy2⟩ := h2
  have hx : a.x = b.x := le_antisymm hx2 hx1
  have hy : a.y = b.y := le_antisymm (hy2 hx.symm) (hy1 hx)
  cases a
  cases b
  simp only [Pt.mk.injEq]
  exact ⟨hx, hy⟩

lemma createEdgeKey_comm (s e : Pt ℚ) :
    createEdgeKey s e = createEdgeKey e s := by
  unfold createEdgeKey
  dsimp only
  by_cases h1 : ltLex s e
  · rw [if_pos h1, if_pos h1, if_neg (ltLex_asymm h1), if_neg (ltLex_asymm h1)]
  · by_cases h2 : ltLex e s
    · rw [if_neg h1, if_neg h1, if_pos h2, if_pos h2]
    · have he : s = e := ltLex_total s e h1 h2
      subst he
      rw [if_neg h1]

lemma edgeKeyOf_condUpdate (e : MEdge) (ci : ℕ) (P : Prop) [Decidable P] :
    edgeKeyOf
      (if P then { e with connectedCells := e.connectedCells ++ [ci] } else e)
      = edgeKeyOf e := by
  split_ifs <;> rfl

lemma keys_extractStep (acc : List MEdge) (x : ℕ × (Pt ℚ × Pt ℚ))
    (k : (ℤ × ℤ) × (ℤ × ℤ)) :
    (∃ e ∈ extractStep acc x, edgeKeyOf e = k) ↔
      ((∃ e ∈ acc, edgeKeyOf e = k) ∨ createEdgeKey x.2.1 x.2.2 = k) := by
  unfold extractStep
  dsimp only
  by_cases h : acc.any
      (fun e => decide (edgeKeyOf e = createEdgeKey x.2.1 x.2.2)) = true
  · rw [if_pos h]
    rw [List.any_eq_true] at h
    obtain ⟨e0, he0, hk0⟩ := h
    rw [decide_eq_true_eq] at hk0
    constructor
    · rintro ⟨e, he, hke⟩
      rw [List.mem_map] at he
      obtain ⟨e', he', rfl⟩ := he
      rw [edgeKeyOf_condUpdate] at hke
      exact Or.inl ⟨e', he', hke⟩
    · rintro (⟨e, he, hke⟩ | hk)
      · refine ⟨_, List.mem_map_of_mem _ he, ?_⟩
        rw [edgeKeyOf_condUpdate]
        exact hke
      · refine ⟨_, List.mem_map_of_mem _ he0, ?_⟩
        rw [edgeKeyOf_condUpdate, hk0]
        exact hk
  · rw [if_neg h]
    constructor
    · rintro ⟨e, he, hke⟩
      rw [List.mem_append] at he
      rcases he with he | he
      · exact Or.inl ⟨e, he, hke⟩
      · rw [List.mem_singleton] at he
        subst he
        exact Or.inr hke
    · rintro (⟨e, he, hke⟩ | hk)
      · exact ⟨e, List.mem_append_left _ he, hke⟩
      · exact ⟨_, List.mem_append_right _ (List.mem_singleton.mpr rfl), hk⟩

lemma keys_extract_fold (segs : List (ℕ × (Pt ℚ × Pt ℚ))) (acc : List MEdge)
    (k : (ℤ × ℤ) × (ℤ × ℤ)) :
    (∃ e ∈ segs.foldl extractStep acc, edgeKeyOf e = k) ↔
      ((∃ e ∈ acc, edgeKeyOf e = k) ∨
        ∃ s ∈ segs, createEdgeKey s.2.1 s.2.2 = k) := by
  induction segs generalizing acc with
  | nil => simp
  | cons a l ih =>
    rw [List.foldl_cons, ih, keys_extractStep]
    constructor
    · rintro ((h | hk) | ⟨s, hs, hk⟩)
      · exact Or.inl h
      · exact Or.inr ⟨a, List.mem_cons_self a l, hk⟩
      · exact Or.inr ⟨s, List.mem_cons_of_mem a hs, hk⟩
    · rintro (h | ⟨s, hs, hk⟩)
      · exact Or.inl (Or.inl h)
      · rw [List.mem_cons] at hs
        rcases hs with rfl | hs
        · exact Or.inl (Or.inr hk)
        · exact Or.inr ⟨s, hs, hk⟩

lemma pairwise_keys_extractStep (acc : List MEdge) (x : ℕ × (Pt ℚ × Pt ℚ))
    (h : acc.Pairwise (fun a b => edgeKeyOf a ≠ edgeKeyOf b)) :
    (extractStep acc x).Pairwise (fun a b => edgeKeyOf a ≠ edgeKeyOf b) := by
  unfold extractStep
  dsimp only
  by_cases hx : acc.any
      (fun e => decide (edgeKeyOf e = createEdgeKey x.2.1 x.2.2)) = true
  · rw [if_pos hx, List.pairwise_map]
    refine h.imp ?_
    intro a b hab
    rw [edgeKeyOf_condUpdate, edgeKeyOf_condUpdate]
    exact hab
  · rw [if_neg hx, List.pairwise_append]
    refine ⟨h, List.pairwise_singleton _ _, ?_⟩
    intro a ha b hb
    rw [List.mem_singleton] at hb
    subst hb
    rw [List.any_eq_true] at hx
    push_neg at hx
    show edgeKeyOf a ≠ createEdgeKey x.2.1 x.2.2
    intro hEq
    exact hx a ha (decide_eq_true hEq)

lemma pairwise_keys_extract_fold (segs : List (ℕ × (Pt ℚ × Pt ℚ)))
    (acc : List MEdge)
    (h : acc.Pairwise (fun a b => edgeKeyOf a ≠ edgeKeyOf b)) :
    (segs.foldl extractStep acc).Pairwise
      (fun a b => edgeKeyOf a ≠ edgeKeyOf b) := by
  induction segs generalizing acc with
  | nil => exact h
  | cons a l ih =>
    rw [List.foldl_cons]
    exact ih _ (pairwise_keys_extractStep acc a h)

lemma mem_of_getElem?_aux {α : Type} (l : List α) (i : ℕ) (a : α)
    (h : l[i]? = some a) : a ∈ l := by
  have hi : i < l.length := by
    by_contra hc
    rw [List.getElem?_eq_none (by omega)] at h
    exact Option.noConfusion h
  rw [List.getElem?_eq_getElem hi] at h
  obtain rfl : l[i] = a := Option.some.inj h
  exact List.getElem_mem hi

lemma key_mem_allSegs (cells : List (List (Pt ℚ))) (k : (ℤ × ℤ) × (ℤ × ℤ)) :
    (∃ s ∈ allSegs cells, createEdgeKey s.2.1 s.2.2 = k) ↔
      ∃ poly ∈ cells, ∃ sg ∈ segments poly, createEdgeKey sg.1 sg.2 = k := by
  unfold allSegs
  constructor
  · rintro ⟨s, hs, hk⟩
    rw [List.mem_flatten] at hs
    obtain ⟨l, hl, hsl⟩ := hs
    rw [List.mem_map] at hl
    obtain ⟨ci, hci, rfl⟩ := hl
    rw [List.mem_map] at hsl
    obtain ⟨sg, hsg, rfl⟩ := hsl
    have hpoly : ci.2 ∈ cells :=
      mem_of_getElem?_aux _ _ _ (List.mem_enum_iff_getElem?.mp hci)
    exact ⟨ci.2, hpoly, sg, hsg, hk⟩
  · rintro ⟨poly, hpoly, sg, hsg, hk⟩
    obtain ⟨i, hi, rfl⟩ := List.getElem_of_mem hpoly
    refine ⟨(i, sg), ?_, hk⟩
    rw [List.mem_flatten]
    refine ⟨(segments cells[i]).map (fun s => (i, s)), ?_, ?_⟩
    · rw [List.mem_map]
      refine ⟨(i, cells[i]), ?_, rfl⟩
      rw [List.mem_enum_iff_getElem?]
      exact List.getElem?_eq_getElem hi
    · exact List.mem_map_of_mem _ hsg

/-- Claim C5: the canonical edge key is direction-independent
(`createEdgeKey s e = createEdgeKey e s`, so both windings of a segment
collide), the extracted edge list carries pairwise-distinct keys (each
physical edge appears exactly once — a repeated key appends the owning
cell instead of adding an edge), and an edge with key `k` exists iff some
polygon traverses a segment with key `k`. -/
theorem C5_dedup_unique (cells : List (List (Pt ℚ))) (s e : Pt ℚ)
    (k : (ℤ × ℤ) × (ℤ × ℤ)) :
    createEdgeKey s e = createEdgeKey e s ∧
    (extractEdgesFromCells cells).Pairwise
      (fun a b => edgeKeyOf a ≠ edgeKeyOf b) ∧
    ((∃ e' ∈ extractEdgesFromCells cells, edgeKeyOf e' = k) ↔
      ∃ poly ∈ cells, ∃ sg ∈ segments poly, createEdgeKey sg.1 sg.2 = k) := by
  refine ⟨createEdgeKey_comm s e, ?_, ?_⟩
  · exact pairwise_keys_extract_fold _ _ List.Pairwise.nil
  · unfold extractEdgesFromCells
    rw [keys_extract_fold, ← key_mem_allSegs]
    simp

/-- Closed instance of C5: the two windings of the segment from `(0,0)` to
`(3,4)` produce the same canonical key. -/
theorem C5_witness :
    createEdgeKey ⟨0, 0⟩ ⟨3, 4⟩ = createEdgeKey ⟨3, 4⟩ ⟨0, 0⟩ :=
  (C5_dedup_unique [] ⟨0, 0⟩ ⟨3, 4⟩ ((0, 0), (0, 0))).1

/- ------------------------------------------------------------------ -/
/- Claim C7.                                                           -/
/- ------------------------------------------------------------------ -/

/-- Claim C7 counterexample: the cell whose polygon lists the vertex
`(0,0)` twice in a row produces an edge list containing exactly one edge,
and that edge is degenerate — its endpoints coincide and its length is 0.
Zero-length edges are NOT excluded by `extractEdgesFromCells`. -/
theorem C7_counterexample :
    (extractEdgesFromCells [[⟨0, 0⟩, ⟨0, 0⟩]]).length = 1 ∧
    ((extractEdgesFromCells [[⟨0, 0⟩, ⟨0, 0⟩]]).getD 0 default).length = 0 ∧
    ((extractEdgesFromCells [[⟨0, 0⟩, ⟨0, 0⟩]]).getD 0 default).start =
      ((extractEdgesFromCells [[⟨0, 0⟩, ⟨0, 0⟩]]).getD 0 default).endp := by
  have hk : edgeKeyOf
      (⟨0, ⟨0, 0⟩, ⟨0, 0⟩, Real.sqrt ((0 - 0 : ℚ) ^ 2 + (0 - 0 : ℚ) ^ 2),
        [0], [], 0, 0⟩ : MEdge) = createEdgeKey ⟨0, 0⟩ ⟨0, 0⟩ := rfl
  have h1 : extractStep [] (0, ((⟨0, 0⟩ : Pt ℚ), ⟨0, 0⟩)) =
      [⟨0, ⟨0, 0⟩, ⟨0, 0⟩, Real.sqrt ((0 - 0 : ℚ) ^ 2 + (0 - 0 : ℚ) ^ 2),
        [0], [], 0, 0⟩] := by
    unfold extractStep
    dsimp only
    rw [if_neg (by simp)]
    rfl
  have h2 : extractStep
      [⟨0, ⟨0, 0⟩, ⟨0, 0⟩, Real.sqrt ((0 - 0 : ℚ) ^ 2 + (0 - 0 : ℚ) ^ 2),
        [0], [], 0, 0⟩] (0, ((⟨0, 0⟩ : Pt ℚ), ⟨0, 0⟩)) =
      [⟨0, ⟨0, 0⟩, ⟨0, 0⟩, Real.sqrt ((0 - 0 : ℚ) ^ 2 + (0 - 0 : ℚ) ^ 2),
        [0, 0], [], 0, 0⟩] := by
    unfold extractStep
    dsimp only
    rw [if_pos (by
      rw [List.any_cons, List.any_nil, Bool.or_false]
      exact decide_eq_true hk)]
    rw [List.map_cons, List.map_nil, if_pos hk]
    rfl
  have hE : extractEdgesFromCells [[(⟨0, 0⟩ : Pt ℚ), ⟨0, 0⟩]] =
      [⟨0, ⟨0, 0⟩, ⟨0, 0⟩, Real.sqrt ((0 - 0 : ℚ) ^ 2 + (0 - 0 : ℚ) ^ 2),
        [0, 0], [], 0, 0⟩] := by
    unfold extractEdgesFromCells
    have hseg : allSegs [[(⟨0, 0⟩ : Pt ℚ), ⟨0, 0⟩]] =
        [(0, (⟨0, 0⟩, ⟨0, 0⟩)), (0, (⟨0, 0⟩, ⟨0, 0⟩))] := rfl
    rw [hseg, List.foldl_cons, List.foldl_cons, List.foldl_nil, h1, h2]
  rw [hE]
  refine ⟨rfl, ?_, rfl⟩
  show Real.sqrt ((0 - 0 : ℚ) ^ 2 + (0 - 0 : ℚ) ^ 2) = 0
  norm_num [Real.sqrt_zero]

/-- Claim C7 (amended): a polygon that lists the same vertex twice
consecutively DOES contribute an edge for that degenerate pair — the edge
list contains an edge carrying the degenerate pair's canonical key
(deduplicated by key like any other edge); zero-length edges are not
excluded. -/
theorem C7_amended_degenerate_kept (cells : List (List (Pt ℚ))) (p : Pt ℚ)
    (poly : List (Pt ℚ)) (hpoly : poly ∈ cells)
    (hseg : (p, p) ∈ segments poly) :
    ∃ e ∈ extractEdgesFromCells cells, edgeKeyOf e = createEdgeKey p p := by
  unfold extractEdgesFromCells
  rw [keys_extract_fold]
  exact Or.inr ((key_mem_allSegs cells (createEdgeKey p p)).mpr
    ⟨poly, hpoly, (p, p), hseg, rfl⟩)

/-- Closed instance of the amended C7 theorem at the degenerate one-cell
polygon `[(0,0), (0,0)]`. -/
theorem C7_witness :
    ∃ e ∈ extractEdgesFromCells [[(⟨0, 0⟩ : Pt ℚ), ⟨0, 0⟩]],
      edgeKeyOf e = createEdgeKey ⟨0, 0⟩ ⟨0, 0⟩ :=
  C7_amended_degenerate_kept [[⟨0, 0⟩, ⟨0, 0⟩]] ⟨0, 0⟩ [⟨0, 0⟩, ⟨0, 0⟩]
    (List.mem_singleton.mpr rfl) (by decide)

/- ------------------------------------------------------------------ -/
/- Claim C10.                                                          -/
/- ------------------------------------------------------------------ -/

/-- Claim C10: one full Evolver pass keeps the edge list's size and every
edge's `id`, `connectedEdges`, `connectedCells`, `acuteAngleCount` and
`expandValue` unchanged; only `originalLength`, `targetLength`, `length`
and the endpoint coordinates may change. -/
theorem C10_frame_applyEdgeValues (vel : VelMap) (edges : List EvEdge)
    (edgeValues : List EdgeValue) (i : ℕ) (hi : i < edges.length) :
    (applyEdgeValues vel edges edgeValues).2.length = edges.length ∧
    ((applyEdgeValues vel edges edgeValues).2.getD i default).id =
      (edges.getD i default).id ∧
    ((applyEdgeValues vel edges edgeValues).2.getD i default).connectedEdges =
      (edges.getD i default).connectedEdges ∧
    ((applyEdgeValues vel edges edgeValues).2.getD i default).connectedCells =
      (edges.getD i default).connectedCells ∧
    ((applyEdgeValues vel edges edgeValues).2.getD i default).acuteAngleCount =
      (edges.getD i default).acuteAngleCount ∧
    ((applyEdgeValues vel edges edgeValues).2.getD i default).expandValue =
      (edges.getD i default).expandValue := by
  have hlen1 : (updateRestLengths edges edgeValues).length = edges.length := by
    unfold updateRestLengths
    rw [List.length_map]
  have hlen2 :
      (applyMoves vel (updateRestLengths edges edgeValues)).length =
        edges.length := by
    unfold applyMoves
    rw [List.length_map, List.length_range, hlen1]
  unfold applyEdgeValues applySpringForcesToEdges
  dsimp only
  refine ⟨by rw [List.length_map, hlen2], ?_, ?_, ?_, ?_, ?_⟩ <;>
    · rw [getD_map_lt _ _ _ (by rw [hlen2]; exact hi)]
      unfold applyMoves
      rw [getD_range_map_lt _ _ _ (by rw [hlen1]; exact hi)]
      unfold updateRestLengths
      rw [getD_map_lt _ _ _ hi]

/-- Closed instance of C10 on a one-edge mesh. -/
theorem C10_witness :
    (applyEdgeValues [] [mkE ⟨0, 0⟩ ⟨0, 0⟩] []).2.length =
      ([mkE ⟨0, 0⟩ ⟨0, 0⟩] : List EvEdge).length ∧
    ((applyEdgeValues [] [mkE ⟨0, 0⟩ ⟨0, 0⟩] []).2.getD 0 default).id =
      (([mkE ⟨0, 0⟩ ⟨0, 0⟩] : List EvEdge).getD 0 default).id ∧
    ((applyEdgeValues [] [mkE ⟨0, 0⟩ ⟨0, 0⟩] []).2.getD 0
        default).connectedEdges =
      (([mkE ⟨0, 0⟩ ⟨0, 0⟩] : List EvEdge).getD 0 default).connectedEdges ∧
    ((applyEdgeValues [] [mkE ⟨0, 0⟩ ⟨0, 0⟩] []).2.getD 0
        default).connectedCells =
      (([mkE ⟨0, 0⟩ ⟨0, 0⟩] : List EvEdge).getD 0 default).connectedCells ∧
    ((applyEdgeValues [] [mkE ⟨0, 0⟩ ⟨0, 0⟩] []).2.getD 0
        default).acuteAngleCount =
      (([mkE ⟨0, 0⟩ ⟨0, 0⟩] : List EvEdge).getD 0 default).acuteAngleCount ∧
    ((applyEdgeValues [] [mkE ⟨0, 0⟩ ⟨0, 0⟩] []).2.getD 0
        default).expandValue =
      (([mkE ⟨0, 0⟩ ⟨0, 0⟩] : List EvEdge).getD 0 default).expandValue :=
  C10_frame_applyEdgeValues [] [mkE ⟨0, 0⟩ ⟨0, 0⟩] [] 0 (by norm_num)

/- ------------------------------------------------------------------ -/
/- Claim C3.                                                           -/
/- ------------------------------------------------------------------ -/

lemma lookupAssoc_cons {κ ν : Type} [DecidableEq κ] (a : κ × ν)
    (m : List (κ × ν)) (k : κ) :
    lookupAssoc (a :: m) k = if a.1 = k then some a.2 else lookupAssoc m k := by
  unfold lookupAssoc
  by_cases h : a.1 = k
  · rw [@List.find?_cons_of_pos _ (fun q => decide (q.1 = k)) a m
      (decide_eq_true h), if_pos h]
    rfl
  · rw [@List.find?_cons_of_neg _ (fun q => decide (q.1 = k)) a m
      (fun hd => h (of_decide_eq_true hd)), if_neg h]

lemma lookupAssoc_setAssoc {κ ν : Type} [DecidableEq κ]
    (m : List (κ × ν)) (k k' : κ) (v : ν) :
    lookupAssoc (setAssoc m k v) k' =
      if k' = k then some v else lookupAssoc m k' := by
  induction m with
  | nil =>
    show lookupAssoc [(k, v)] k' = _
    rw [lookupAssoc_cons]
    by_cases h : k' = k
    · rw [if_pos (show ((k, v) : κ × ν).1 = k' from h.symm), if_pos h]
    · rw [if_neg (show ¬ ((k, v) : κ × ν).1 = k' from fun he => h he.symm),
        if_neg h]
  | cons p m ih =>
    show lookupAssoc (if p.1 = k then (k, v) :: m else p :: setAssoc m k v) k'
      = _
    by_cases hpk : p.1 = k
    · rw [if_pos hpk, lookupAssoc_cons, lookupAssoc_cons]
      by_cases h : k' = k
      · rw [if_pos (show ((k, v) : κ × ν).1 = k' from h.symm), if_pos h]
      · rw [if_neg (show ¬ ((k, v) : κ × ν).1 = k' from fun he => h he.symm),
          if_neg h,
          if_neg (show ¬ p.1 = k' from by
            rw [hpk]
            exact fun he => h he.symm)]
    · rw [if_neg hpk, lookupAssoc_cons, lookupAssoc_cons]
      by_cases hp' : p.1 = k'
      · rw [if_pos hp', if_pos hp',
          if_neg (show ¬ k' = k from fun he => hpk (hp'.trans he))]
      · rw [if_neg hp', ih, if_neg hp']

lemma lookup_foldl_setAssoc_absent {κ ν α : Type} [DecidableEq κ]
    (f : κ → ν) (k : κ) :
    ∀ (l : List (κ × α)) (m : List (κ × ν)), (∀ p ∈ l, p.1 ≠ k) →
      lookupAssoc (l.foldl (fun m p => setAssoc m p.1 (f p.1)) m) k =
        lookupAssoc m k
  | [], m => fun _ => rfl
  | a :: l, m => by
    intro h
    rw [List.foldl_cons,
      lookup_foldl_setAssoc_absent f k l _
        (fun p hp => h p (List.mem_cons_of_mem a hp)),
      lookupAssoc_setAssoc,
      if_neg (fun he => h a (List.mem_cons_self a l) he.symm)]

lemma lookup_foldl_setAssoc_mem {κ ν α : Type} [DecidableEq κ]
    (f : κ → ν) (k : κ) (r : α) :
    ∀ (l : List (κ × α)) (m : List (κ × ν)), (k, r) ∈ l →
      l.Pairwise (fun a b => a.1 ≠ b.1) →
      lookupAssoc (l.foldl (fun m p => setAssoc m p.1 (f p.1)) m) k =
        some (f k)
  | [], m => fun hmem _ => absurd hmem (List.not_mem_nil _)
  | a :: l, m => by
    intro hmem hnd
    rw [List.pairwise_cons] at hnd
    rw [List.mem_cons] at hmem
    rw [List.foldl_cons]
    rcases hmem with heq | hmem
    · obtain rfl : a = (k, r) := heq.symm
      rw [lookup_foldl_setAssoc_absent f k l _
        (fun p hp => (hnd.1 p hp).symm)]
      rw [lookupAssoc_setAssoc, if_pos rfl]
    · exact lookup_foldl_setAssoc_mem f k r l _ hmem hnd.2

lemma pairwise_dedup_fold {κ α : Type} [DecidableEq κ] :
    ∀ (l acc : List (κ × α)),
      acc.Pairwise (fun a b => a.1 ≠ b.1) →
      (l.foldl
        (fun acc p => if ∃ q ∈ acc, q.1 = p.1 then acc else acc ++ [p])
        acc).Pairwise (fun a b => a.1 ≠ b.1)
  | [], acc => fun h => h
  | a :: l, acc => by
    intro h
    rw [List.foldl_cons]
    by_cases hc : ∃ q ∈ acc, q.1 = a.1
    · rw [if_pos hc]
      exact pairwise_dedup_fold l acc h
    · rw [if_neg hc]
      refine pairwise_dedup_fold l _ ?_
      rw [List.pairwise_append]
      refine ⟨h, List.pairwise_singleton _ _, ?_⟩
      intro x hx b hb
      rw [List.mem_singleton] at hb
      subst hb
      push_neg at hc
      exact hc x hx

lemma forceKeys_pairwise (edges : List EvEdge) :
    (forceKeys edges).Pairwise (fun a b => a.1 ≠ b.1) := by
  unfold forceKeys
  exact pairwise_dedup_fold (vertexRefs edges) [] List.Pairwise.nil

lemma lookup_newVelocities (vel : VelMap) (edges : List EvEdge) (k : ℤ × ℤ)
    (r : ℕ × Bool) (h : (k, r) ∈ forceKeys edges) :
    lookupAssoc (newVelocities vel edges) k = some (stepVel vel edges k) := by
  unfold newVelocities
  exact lookup_foldl_setAssoc_mem (stepVel vel edges) k r (forceKeys edges)
    vel h (forceKeys_pairwise edges)

/-- Claim C3 (amended): the velocity store is keyed by the quantized
CURRENT position (the `toFixed(6)` string), not by stable vertex identity:
after a pass, the store holds the freshly computed velocity under the key
of the position the vertex had at the START of the pass, and a key absent
from the store makes the integration start from zero velocity. -/
theorem C3_amended_velocity_keyed_by_position (vel : VelMap)
    (edges : List EvEdge) (k : ℤ × ℤ) (r : ℕ × Bool)
    (h : (k, r) ∈ forceKeys edges) :
    lookupAssoc (newVelocities vel edges) k = some (stepVel vel edges k) ∧
    (lookupAssoc vel k = none →
      stepVel vel edges k =
        (dampingFactor * ((forceAt edges k).1 * timeStep),
         dampingFactor * ((forceAt edges k).2 * timeStep))) := by
  refine ⟨lookup_newVelocities vel edges k r h, ?_⟩
  intro hnone
  unfold stepVel
  rw [hnone]
  dsimp only [Option.getD]
  rw [Prod.mk.injEq]
  constructor <;> ring

/-- Closed instance of the amended C3 theorem on a one-edge mesh whose
single vertex key starts with no stored velocity. -/
theorem C3_witness :
    lookupAssoc (newVelocities [] [mkE ⟨0, 0⟩ ⟨0, 0⟩]) (0, 0) =
      some (stepVel [] [mkE ⟨0, 0⟩ ⟨0, 0⟩] (0, 0)) ∧
    stepVel [] [mkE ⟨0, 0⟩ ⟨0, 0⟩] (0, 0) =
      (dampingFactor * ((forceAt [mkE ⟨0, 0⟩ ⟨0, 0⟩] (0, 0)).1 * timeStep),
       dampingFactor * ((forceAt [mkE ⟨0, 0⟩ ⟨0, 0⟩] (0, 0)).2 * timeStep))
    := by
  have hk0 : getVertexKey (⟨0, 0⟩ : Pt ℝ) = (0, 0) := by
    show (⌊(0 : ℝ) * 1000000 + 1 / 2⌋, ⌊(0 : ℝ) * 1000000 + 1 / 2⌋)
      = ((0 : ℤ), (0 : ℤ))
    norm_num [Prod.mk.injEq]
  have hvr0 : vertexRefs [mkE ⟨0, 0⟩ ⟨0, 0⟩] =
      [(getVertexKey (⟨0, 0⟩ : Pt ℝ), (0, true)),
       (getVertexKey (⟨0, 0⟩ : Pt ℝ), (0, false))] := rfl
  have hvr : vertexRefs [mkE ⟨0, 0⟩ ⟨0, 0⟩] =
      [((0, 0), (0, true)), ((0, 0), (0, false))] := by
    rw [hvr0, hk0]
  have hfk : forceKeys [mkE ⟨0, 0⟩ ⟨0, 0⟩] = [((0, 0), (0, true))] := by
    unfold forceKeys
    rw [hvr, List.foldl_cons, List.foldl_cons, List.foldl_nil]
    rw [if_neg (show ¬ ∃ q ∈ ([] : List ((ℤ × ℤ) × (ℕ × Bool))),
      q.1 = ((((0, 0) : ℤ × ℤ), ((0 : ℕ), true)) : (ℤ × ℤ) × (ℕ × Bool)).1
      by decide)]
    rw [if_pos (show ∃ q ∈ ([] : List ((ℤ × ℤ) × (ℕ × Bool))) ++
        [(((0, 0) : ℤ × ℤ), ((0 : ℕ), true))],
      q.1 = ((((0, 0) : ℤ × ℤ), ((0 : ℕ), false)) :
        (ℤ × ℤ) × (ℕ × Bool)).1 by decide)]
    rfl
  have hmem : (((0, 0) : ℤ × ℤ), ((0 : ℕ), true)) ∈
      forceKeys [mkE ⟨0, 0⟩ ⟨0, 0⟩] := by
    rw [hfk]
    exact List.mem_singleton.mpr rfl
  have h := C3_amended_velocity_keyed_by_position [] [mkE ⟨0, 0⟩ ⟨0, 0⟩]
    (0, 0) (0, true) hmem
  exact ⟨h.1, h.2 rfl⟩

/-- Claim C3 counterexample: starting from an empty velocity store, one
`applySpringForcesToEdges` pass on the stretched edge `c3Edge` moves its
start vertex from `(0,0)` to `(0.00255, 0)` and stores the velocity it
computed for that vertex under the OLD position key; resolving the store by
the vertex's new position finds nothing, so the next step starts that
vertex from zero velocity instead of the stored nonzero one — velocity is
keyed by re-quantized position, not stable per-vertex identity. -/
theorem C3_counterexample :
    (c3State.2.getD 0 default).start ≠ c3Edge.start ∧
    lookupAssoc c3State.1 (getVertexKey c3Edge.start) =
      some (51 / 2000, 0) ∧
    lookupAssoc c3State.1 (getVertexKey (c3State.2.getD 0 default).start)
      = none ∧
    (lookupAssoc c3State.1
        (getVertexKey (c3State.2.getD 0 default).start)).getD (0, 0)
      = (0, 0) ∧
    ((51 / 2000 : ℝ), (0 : ℝ)) ≠ ((0 : ℝ), (0 : ℝ)) := by
  have hk0 : getVertexKey (⟨0, 0⟩ : Pt ℝ) = (0, 0) := by
    show (⌊(0 : ℝ) * 1000000 + 1 / 2⌋, ⌊(0 : ℝ) * 1000000 + 1 / 2⌋)
      = ((0 : ℤ), (0 : ℤ))
    norm_num [Prod.mk.injEq]
  have hk2 : getVertexKey (⟨2, 0⟩ : Pt ℝ) = (2000000, 0) := by
    show (⌊(2 : ℝ) * 1000000 + 1 / 2⌋, ⌊(0 : ℝ) * 1000000 + 1 / 2⌋)
      = ((2000000 : ℤ), (0 : ℤ))
    norm_num [Prod.mk.injEq]
  have hkM : getVertexKey (⟨51 / 20000, 0⟩ : Pt ℝ) = (2550, 0) := by
    show (⌊(51 / 20000 : ℝ) * 1000000 + 1 / 2⌋, ⌊(0 : ℝ) * 1000000 + 1 / 2⌋)
      = ((2550 : ℤ), (0 : ℤ))
    norm_num [Prod.mk.injEq]
  have hL : currentLength c3Edge = 2 := by
    unfold currentLength c3Edge
    rw [show ((2 : ℝ) - 0) ^ 2 + ((0 : ℝ) - 0) ^ 2 = 2 ^ 2 by norm_num]
    exact Real.sqrt_sq (by norm_num)
  have hT : targetOf c3Edge = 1 := by
    norm_num [targetOf, jsOr, c3Edge]
  have hF : edgeForce c3Edge = (3 / 10, 0) := by
    unfold edgeForce
    dsimp only
    rw [hL, hT]
    norm_num [c3Edge, springConstant, Prod.mk.injEq]
  have hc0 : edgeContribAt c3Edge (0, 0) = (3 / 10, 0) := by
    have h1 : getVertexKey c3Edge.start = ((0, 0) : ℤ × ℤ) := hk0
    have h2 : getVertexKey c3Edge.endp = ((2000000, 0) : ℤ × ℤ) := hk2
    unfold edgeContribAt
    rw [hF, h1, h2]
    norm_num [Prod.ext_iff]
  have hc2 : edgeContribAt c3Edge (2000000, 0) = (-(3 / 10), 0) := by
    have h1 : getVertexKey c3Edge.start = ((0, 0) : ℤ × ℤ) := hk0
    have h2 : getVertexKey c3Edge.endp = ((2000000, 0) : ℤ × ℤ) := hk2
    unfold edgeContribAt
    rw [hF, h1, h2]
    norm_num [Prod.ext_iff]
  have hforce0 : forceAt [c3Edge] (0, 0) = (3 / 10, 0) := by
    unfold forceAt
    rw [List.map_cons, List.map_nil, List.sum_cons, List.sum_nil,
      List.map_cons, List.map_nil, List.sum_cons, List.sum_nil, hc0]
    norm_num [Prod.mk.injEq]
  have hforce2 : forceAt [c3Edge] (2000000, 0) = (-(3 / 10), 0) := by
    unfold forceAt
    rw [List.map_cons, List.map_nil, List.sum_cons, List.sum_nil,
      List.map_cons, List.map_nil, List.sum_cons, List.sum_nil, hc2]
    norm_num [Prod.mk.injEq]
  have hstep0 : stepVel [] [c3Edge] (0, 0) = (51 / 2000, 0) := by
    unfold stepVel
    rw [hforce0]
    norm_num [lookupAssoc, dampingFactor, timeStep, Prod.mk.injEq]
  have hstep2 : stepVel [] [c3Edge] (2000000, 0) = (-(51 / 2000), 0) := by
    unfold stepVel
    rw [hforce2]
    norm_num [lookupAssoc, dampingFactor, timeStep, Prod.mk.injEq]
  have hrefs0 : vertexRefs [c3Edge] =
      [(getVertexKey (⟨0, 0⟩ : Pt ℝ), (0, true)),
       (getVertexKey (⟨2, 0⟩ : Pt ℝ), (0, false))] := rfl
  have hrefs : vertexRefs [c3Edge] =
      [((0, 0), (0, true)), ((2000000, 0), (0, false))] := by
    rw [hrefs0, hk0, hk2]
  have hfk : forceKeys [c3Edge] =
      [((0, 0), (0, true)), ((2000000, 0), (0, false))] := by
    unfold forceKeys
    rw [hrefs, List.foldl_cons, List.foldl_cons, List.foldl_nil]
    rw [if_neg (show ¬ ∃ q ∈ ([] : List ((ℤ × ℤ) × (ℕ × Bool))),
      q.1 = ((((0, 0) : ℤ × ℤ), ((0 : ℕ), true)) : (ℤ × ℤ) × (ℕ × Bool)).1
      by decide)]
    rw [if_neg (show ¬ ∃ q ∈ ([] : List ((ℤ × ℤ) × (ℕ × Bool))) ++
        [(((0, 0) : ℤ × ℤ), ((0 : ℕ), true))],
      q.1 = ((((2000000, 0) : ℤ × ℤ), ((0 : ℕ), false)) :
        (ℤ × ℤ) × (ℕ × Bool)).1 by decide)]
    rfl
  have hrep0 : repFor [c3Edge] (0, 0) = some (0, true) := by
    unfold repFor
    rw [hrefs]
    rw [@List.find?_cons_of_pos ((ℤ × ℤ) × (ℕ × Bool))
      (fun p => decide (p.1 = ((0, 0) : ℤ × ℤ)))
      (((0, 0) : ℤ × ℤ), ((0 : ℕ), true))
      [(((2000000, 0) : ℤ × ℤ), ((0 : ℕ), false))] (decide_eq_true rfl)]
    rfl
  have hrep2 : repFor [c3Edge] (2000000, 0) = some (0, false) := by
    unfold repFor
    rw [hrefs]
    rw [@List.find?_cons_of_neg ((ℤ × ℤ) × (ℕ × Bool))
      (fun p => decide (p.1 = ((2000000, 0) : ℤ × ℤ)))
      (((0, 0) : ℤ × ℤ), ((0 : ℕ), true))
      [(((2000000, 0) : ℤ × ℤ), ((0 : ℕ), false))]
      (fun hd => absurd (of_decide_eq_true hd) (by decide))]
    rw [@List.find?_cons_of_pos ((ℤ × ℤ) × (ℕ × Bool))
      (fun p => decide (p.1 = ((2000000, 0) : ℤ × ℤ)))
      (((2000000, 0) : ℤ × ℤ), ((0 : ℕ), false)) [] (decide_eq_true rfl)]
    rfl
  have hpos0 : posOf [c3Edge] (0, true) = (⟨0, 0⟩ : Pt ℝ) := rfl
  have hpos1 : posOf [c3Edge] (0, false) = (⟨2, 0⟩ : Pt ℝ) := rfl
  have hmove_start : movedPos [] [c3Edge] (0, true) =
      (⟨51 / 20000, 0⟩ : Pt ℝ) := by
    unfold movedPos
    dsimp only
    rw [hpos0, hk0, hrep0, if_pos rfl, hstep0]
    norm_num [wrapCoordinate, timeStep, Pt.mk.injEq]
  have hstart : (c3State.2.getD 0 default).start =
      (⟨51 / 20000, 0⟩ : Pt ℝ) := by
    unfold c3State applySpringForcesToEdges
    dsimp only
    have hlen : (applyMoves [] [c3Edge]).length = 1 := by
      unfold applyMoves
      rw [List.length_map, List.length_range]
      rfl
    rw [getD_map_lt _ _ _ (by rw [hlen]; norm_num)]
    unfold applyMoves
    rw [getD_range_map_lt _ _ _ (by norm_num)]
    dsimp only
    exact hmove_start
  have hnone : lookupAssoc c3State.1
      (getVertexKey (c3State.2.getD 0 default).start) = none := by
    rw [hstart, hkM]
    show lookupAssoc (newVelocities [] [c3Edge]) (2550, 0) = none
    unfold newVelocities
    rw [hfk, List.foldl_cons, List.foldl_cons, List.foldl_nil]
    rw [lookupAssoc_setAssoc, if_neg (by norm_num [Prod.mk.injEq]),
      lookupAssoc_setAssoc, if_neg (by norm_num [Prod.mk.injEq])]
    rfl
  refine ⟨?_, ?_, hnone, ?_, ?_⟩
  · rw [hstart]
    show (⟨51 / 20000, 0⟩ : Pt ℝ) ≠ ⟨0, 0⟩
    norm_num [Pt.mk.injEq]
  · have h1 : getVertexKey c3Edge.start = ((0, 0) : ℤ × ℤ) := hk0
    rw [h1]
    show lookupAssoc (newVelocities [] [c3Edge]) (0, 0) = some (51 / 2000, 0)
    rw [lookup_newVelocities [] [c3Edge] (0, 0) (0, true)
      (by rw [hfk]; exact List.mem_cons_self _ _), hstep0]
  · rw [hnone]
    rfl
  · norm_num [Prod.mk.injEq]

end AcuteEdges
